import Mathlib

/-!
Verification of the Monte Carlo stock simulator core: parameter estimation
from historical returns, vectorized GBM path generation, and tail-risk
statistics (VaR / expected shortfall) over the simulated terminal
distribution.  The embedding follows the source file main.py: the functions
simulate_gbm and run_monte_carlo (its estimation and risk-metric sections).
Floating-point arithmetic is idealized as exact arithmetic in a linear
ordered field; NaN results of pandas/NumPy reductions over empty data are
modelled with Option (none = NaN).
-/

namespace MonteCarlo

variable {K : Type} [LinearOrderedField K] [FloorRing K]

/-- Partial sums along a row, as np.cumsum does on axis=1 row-wise. -/
def cumsum : List K → List K
  | [] => []
  | x :: xs => x :: (cumsum xs).map (x + ·)

/-- Arithmetic mean of a non-empty array, ndarray.mean. -/
def mean (xs : List K) : K := xs.sum / xs.length

/-- Mean as pandas/NumPy compute it, with NaN (none) on empty data. -/
def meanOpt (xs : List K) : Option K :=
  if xs.isEmpty then none else some (mean xs)

/-- Variance with divisor n (ddof=0), the NumPy ndarray.std default squared;
NaN (none) on empty data. -/
def varDdof0 (xs : List K) : Option K :=
  if xs.isEmpty then none
  else some ((xs.map (fun x => (x - mean xs) ^ 2)).sum / xs.length)

/-- Variance with divisor n - 1 (ddof=1), the pandas Series.std default
squared; NaN (none) when fewer than two data points. -/
def varDdof1 (xs : List K) : Option K :=
  if xs.length < 2 then none
  else some ((xs.map (fun x => (x - mean xs) ^ 2)).sum / ((xs.length : K) - 1))

/-- Interpolated order statistic of a sorted list at a fractional rank:
the value between the entries at positions floor(pos) and floor(pos)+1,
a weight of pos - floor(pos) on the latter. -/
def interpAt (s : List K) (pos : K) : K :=
  let k := ⌊pos⌋₊
  let a := s.getD k 0
  let b := s.getD (k + 1) a
  a + (pos - (k : K)) * (b - a)

/-- Linear-interpolation percentile, the np.percentile default method: sort
ascending, take the fractional order statistic at rank q/100 * (n-1). -/
def percentile (xs : List K) (q : K) : K :=
  interpAt (List.insertionSort (· ≤ ·) xs) (q * ((xs.length : K) - 1) / 100)

/-- Terminal prices: the last column of the path matrix (line 90). -/
def lastColumn (M : List (List K)) : List K := M.map (fun r => r.getLastD 0)

/-- Terminal simple returns, terminal_prices / S0 - 1 (line 91). -/
def terminalReturns (M : List (List K)) (S0 : K) : List K :=
  (lastColumn M).map (fun p => p / S0 - 1)

/-- Position profit and loss, (terminal_prices - S0) * position_shares
(line 97). -/
def pnlOf (M : List (List K)) (S0 pos : K) : List K :=
  (lastColumn M).map (fun p => (p - S0) * pos)

/-- The 5th percentile of a terminal distribution, np.percentile(xs, 5)
(lines 94 and 98). -/
def VaR95 (xs : List K) : K := percentile xs 5

/-- The tail set: all values at or below a cutoff, xs[xs <= v]. -/
def tailSet (xs : List K) (v : K) : List K :=
  xs.filter (fun x => decide (x ≤ v))

/-- Expected shortfall: the mean of the values at or below the 5th
percentile, xs[xs <= VaR].mean() (lines 95 and 99); NaN when that tail is
empty. -/
def ES95 (xs : List K) : Option K := meanOpt (tailSet xs (VaR95 xs))

/-- The smallest value of a list: head of its ascending sort. -/
def minVal (xs : List K) : K := (List.insertionSort (· ≤ ·) xs).getD 0 0

/-! Definitions written from the words of the specification, to be compared
with the embedding of the source. -/

/-- Spec wording: the 5th percentile of the data, by linear interpolation
between order statistics at rank (n-1) * 5/100, the standard percentile
convention. -/
def spec_percentile5 (xs : List K) : K :=
  let s := List.insertionSort (· ≤ ·) xs
  let h := ((xs.length : K) - 1) * (5 / 100)
  let lo := s.getD ⌊h⌋₊ 0
  let hi := s.getD (⌊h⌋₊ + 1) lo
  lo + (h - (⌊h⌋₊ : K)) * (hi - lo)

/-- Spec wording: the expected shortfall is the mean of all values less than
or equal to the 5th percentile. -/
def spec_ES5 (xs : List K) : Option K :=
  meanOpt (xs.filter (fun x => decide (x ≤ spec_percentile5 xs)))

/-! Basic lemmas about the analyzer. -/

lemma mem_tailSet {xs : List K} {v x : K} : x ∈ tailSet xs v ↔ x ∈ xs ∧ x ≤ v := by
  simp [tailSet]

lemma mean_le_of_forall_le {xs : List K} {v : K} (hne : xs ≠ []) (h : ∀ x ∈ xs, x ≤ v) :
    mean xs ≤ v := by
  have hlen : 0 < (xs.length : K) := by
    exact_mod_cast List.length_pos.mpr hne
  rw [mean, div_le_iff hlen]
  calc xs.sum ≤ xs.length • v := List.sum_le_card_nsmul xs v h
  _ = v * xs.length := by rw [nsmul_eq_mul]; ring

/-- Evaluating the interpolated order statistic never goes below the head of
the sorted list. -/
lemma getD_zero_le_interpAt {s : List K} (hs : List.Sorted (· ≤ ·) s)
    (hpos : 0 ≤ pos) (hlt : ⌊pos⌋₊ < s.length) : s.getD 0 0 ≤ interpAt s pos := by
  have h0 : 0 < s.length := Nat.lt_of_le_of_lt (Nat.zero_le _) hlt
  have ha : s.getD (⌊pos⌋₊) 0 = s.get ⟨⌊pos⌋₊, hlt⟩ := List.getD_eq_get s 0 hlt
  have hmin : s.getD 0 0 ≤ s.getD (⌊pos⌋₊) 0 := by
    rw [ha, List.getD_eq_get s 0 h0]
    exact hs.rel_get_of_le (by exact Fin.mk_le_mk.mpr (Nat.zero_le _))
  have hd : 0 ≤ pos - (⌊pos⌋₊ : K) := sub_nonneg.mpr (Nat.floor_le hpos)
  have hab : s.getD (⌊pos⌋₊) 0 ≤ s.getD (⌊pos⌋₊ + 1) (s.getD (⌊pos⌋₊) 0) := by
    rcases Nat.lt_or_ge (⌊pos⌋₊ + 1) s.length with hlt1 | hge1
    · rw [ha, List.getD_eq_get s _ hlt1]
      exact hs.rel_get_of_le (by exact Fin.mk_le_mk.mpr (Nat.le_succ _))
    · rw [List.getD_eq_default s _ hge1]
  have : 0 ≤ (pos - (⌊pos⌋₊ : K)) * (s.getD (⌊pos⌋₊ + 1) (s.getD (⌊pos⌋₊) 0) - s.getD (⌊pos⌋₊) 0) :=
    mul_nonneg hd (sub_nonneg.mpr hab)
  calc s.getD 0 0 ≤ s.getD (⌊pos⌋₊) 0 := hmin
  _ ≤ interpAt s pos := by rw [interpAt]; exact le_add_of_nonneg_right this

lemma minVal_mem {xs : List K} (hne : xs ≠ []) : minVal xs ∈ xs := by
  have hlen : 0 < (List.insertionSort (· ≤ ·) xs).length := by
    rw [List.length_insertionSort]; exact List.length_pos.mpr hne
  rw [minVal, List.getD_eq_get _ _ hlen]
  exact (List.mem_insertionSort (· ≤ ·)).mp (List.get_mem _ _ hlen)

lemma minVal_le {xs : List K} {x : K} (hx : x ∈ xs) : minVal xs ≤ x := by
  obtain ⟨i, hi⟩ := List.mem_iff_get.mp ((List.mem_insertionSort (· ≤ ·)).mpr hx)
  have hlen : 0 < (List.insertionSort (· ≤ ·) xs).length :=
    Nat.lt_of_le_of_lt (Nat.zero_le _) i.isLt
  rw [minVal, List.getD_eq_get _ _ hlen, ← hi]
  exact (List.sorted_insertionSort (· ≤ ·) xs).rel_get_of_le
    (Fin.mk_le_mk.mpr (Nat.zero_le _))

lemma minVal_le_VaR95 {xs : List K} (hne : xs ≠ []) : minVal xs ≤ VaR95 xs := by
  have hn : 0 < xs.length := List.length_pos.mpr hne
  have hn1 : (1 : K) ≤ (xs.length : K) := by exact_mod_cast hn
  have hpos : 0 ≤ 5 * ((xs.length : K) - 1) / 100 := by
    apply div_nonneg _ (by norm_num)
    nlinarith
  have hle : 5 * ((xs.length : K) - 1) / 100 ≤ (xs.length : K) - 1 := by
    rw [div_le_iff (by norm_num : (0 : K) < 100)]
    nlinarith
  have hfl : ⌊5 * ((xs.length : K) - 1) / 100⌋₊ < (List.insertionSort (· ≤ ·) xs).length := by
    rw [List.length_insertionSort]
    have hcast : ((xs.length - 1 : ℕ) : K) = (xs.length : K) - 1 := by
      exact_mod_cast Nat.cast_sub hn
    have : ⌊5 * ((xs.length : K) - 1) / 100⌋₊ ≤ xs.length - 1 := by
      calc ⌊5 * ((xs.length : K) - 1) / 100⌋₊ ≤ ⌊((xs.length - 1 : ℕ) : K)⌋₊ :=
        Nat.floor_le_floor (by rw [hcast]; exact hle)
      _ = xs.length - 1 := Nat.floor_natCast _
    exact Nat.lt_of_le_of_lt this (Nat.sub_lt hn Nat.one_pos)
  rw [VaR95, percentile, minVal]
  exact getD_zero_le_interpAt (List.sorted_insertionSort (· ≤ ·) xs) hpos hfl

lemma ES95_le_VaR95_of_tail_nonempty {xs : List K}
    (h : tailSet xs (VaR95 xs) ≠ []) :
    ES95 xs = some (mean (tailSet xs (VaR95 xs))) ∧
    mean (tailSet xs (VaR95 xs)) ≤ VaR95 xs := by
  refine ⟨?_, ?_⟩
  · rw [ES95, meanOpt, if_neg (by simpa [List.isEmpty_iff] using h)]
  · exact mean_le_of_forall_le h (fun x hx => (mem_tailSet.mp hx).2)

lemma percentile5_eq_spec (xs : List K) : percentile xs 5 = spec_percentile5 xs := by
  simp only [percentile, spec_percentile5, interpAt]
  rw [show (5 : K) * ((xs.length : K) - 1) / 100 = ((xs.length : K) - 1) * (5 / 100) from
    by ring]

lemma ES95_eq_spec (xs : List K) : ES95 xs = spec_ES5 xs := by
  rw [ES95, spec_ES5, tailSet, VaR95, percentile5_eq_spec]

lemma VaR95_singleton (x : K) : VaR95 [x] = x := by
  have h : (5 : K) * ((([x] : List K).length : K) - 1) / 100 = 0 := by norm_num
  rw [VaR95, percentile, h, interpAt]
  norm_num [List.insertionSort, List.orderedInsert]

lemma ES95_singleton (x : K) : ES95 [x] = some x := by
  rw [ES95, VaR95_singleton]
  simp [tailSet, meanOpt, mean, List.filter]

/-- Claim C3: for every path matrix, spot price and position size (any value,
fractional or negative), the risk analyzer computes terminal returns as
last-column / S0 - 1, pnl as (terminal - S0) * position_size, VaR95 as the
5th percentile with linear interpolation between order statistics, and ES95
as the mean of all values at or below VaR95, in return space and PnL
space. -/
theorem risk_analyzer_formulas (M : List (List K)) (S0 pos : K) :
    terminalReturns M S0 = (M.map (fun r => r.getLastD 0)).map (fun p => p / S0 - 1) ∧
    pnlOf M S0 pos = (M.map (fun r => r.getLastD 0)).map (fun p => (p - S0) * pos) ∧
    VaR95 (terminalReturns M S0) = spec_percentile5 (terminalReturns M S0) ∧
    ES95 (terminalReturns M S0) = spec_ES5 (terminalReturns M S0) ∧
    VaR95 (pnlOf M S0 pos) = spec_percentile5 (pnlOf M S0 pos) ∧
    ES95 (pnlOf M S0 pos) = spec_ES5 (pnlOf M S0 pos) :=
  ⟨rfl, rfl, percentile5_eq_spec _, ES95_eq_spec _, percentile5_eq_spec _, ES95_eq_spec _⟩

/-- Claim C4: whenever the tail set (values at or below the 5th percentile)
is non-empty, the expected shortfall is defined and is at most the VaR, in
return space and in PnL space. -/
theorem es95_le_var95 (M : List (List K)) (S0 pos : K)
    (h1 : tailSet (terminalReturns M S0) (VaR95 (terminalReturns M S0)) ≠ [])
    (h2 : tailSet (pnlOf M S0 pos) (VaR95 (pnlOf M S0 pos)) ≠ []) :
    (∃ e, ES95 (terminalReturns M S0) = some e ∧ e ≤ VaR95 (terminalReturns M S0)) ∧
    (∃ e, ES95 (pnlOf M S0 pos) = some e ∧ e ≤ VaR95 (pnlOf M S0 pos)) := by
  obtain ⟨ha, hb⟩ := ES95_le_VaR95_of_tail_nonempty h1
  obtain ⟨hc, hd⟩ := ES95_le_VaR95_of_tail_nonempty h2
  exact ⟨⟨_, ha, hb⟩, ⟨_, hc, hd⟩⟩

/-- Witness for claim C4 at the concrete path matrix [[2]], spot 1 and
position 1. -/
theorem es95_le_var95_witness :
    (∃ e, ES95 (terminalReturns ([[2]] : List (List ℚ)) 1) = some e ∧
      e ≤ VaR95 (terminalReturns ([[2]] : List (List ℚ)) 1)) ∧
    (∃ e, ES95 (pnlOf ([[2]] : List (List ℚ)) 1 1) = some e ∧
      e ≤ VaR95 (pnlOf ([[2]] : List (List ℚ)) 1 1)) := by
  have e1 : terminalReturns ([[2]] : List (List ℚ)) 1 = [1] := by
    norm_num [terminalReturns, lastColumn, List.getLastD]
  have e2 : pnlOf ([[2]] : List (List ℚ)) 1 1 = [1] := by
    norm_num [pnlOf, lastColumn, List.getLastD]
  refine es95_le_var95 [[2]] 1 1 ?_ ?_
  · rw [e1, VaR95_singleton]; simp [tailSet]
  · rw [e2, VaR95_singleton]; simp [tailSet]

/-- Claim C10: for every non-empty terminal distribution, the tail set of
values at or below the 5th percentile contains the minimum and is non-empty,
so ES95 is a well-defined mean; for a single value the ES95 equals that
value. -/
theorem tail_contains_min_es95_total (xs : List K) (hne : xs ≠ []) :
    minVal xs ∈ tailSet xs (VaR95 xs) ∧
    tailSet xs (VaR95 xs) ≠ [] ∧
    (ES95 xs).isSome = true ∧
    ∀ x : K, xs = [x] → ES95 xs = some x := by
  have hmem : minVal xs ∈ tailSet xs (VaR95 xs) :=
    mem_tailSet.mpr ⟨minVal_mem hne, minVal_le_VaR95 hne⟩
  have hne2 : tailSet xs (VaR95 xs) ≠ [] := List.ne_nil_of_mem hmem
  refine ⟨hmem, hne2, ?_, ?_⟩
  · rw [(ES95_le_VaR95_of_tail_nonempty hne2).1]; rfl
  · intro x hx
    subst hx
    exact ES95_singleton x

/-- Witness for claim C10 at the concrete singleton distribution [2]. -/
theorem tail_contains_min_es95_total_witness :
    minVal ([2] : List ℚ) ∈ tailSet ([2] : List ℚ) (VaR95 [2]) ∧
    tailSet ([2] : List ℚ) (VaR95 [2]) ≠ [] ∧
    (ES95 ([2] : List ℚ)).isSome = true ∧
    ∀ x : ℚ, ([2] : List ℚ) = [x] → ES95 ([2] : List ℚ) = some x :=
  tail_contains_min_es95_total [2] (by simp)

/-! The GBM path simulator, simulate_gbm of main.py (lines 25 to 32), over
exact reals.  The standard-normal draw Z produced by the seeded random
source (an external collaborator per the spec) enters as a function
argument. -/

/-- Row i of the log-increment matrix (line 29):
(mu - 0.5 sigma^2) dt + sigma sqrt(dt) Z[i, t] for t = 0 .. steps-1. -/
noncomputable def increments (Z : ℕ → ℕ → ℝ) (mu sigma dt : ℝ) (steps i : ℕ) : List ℝ :=
  (List.range steps).map (fun t => (mu - 0.5 * sigma ^ 2) * dt + sigma * Real.sqrt dt * Z i t)

/-- The path simulator (lines 25 to 32): dt = T/steps, form the increments
from the drawn normals, cumulative-sum each row into log prices, take
S0 * exp, and prepend S0 as column 0 of every row. -/
noncomputable def simulate_gbm (Z : ℕ → ℕ → ℝ) (S0 mu sigma T : ℝ)
    (steps n_sims : ℕ) : List (List ℝ) :=
  (List.range n_sims).map (fun i =>
    S0 :: (cumsum (increments Z mu sigma (T / (steps : ℝ)) steps i)).map
      (fun l => S0 * Real.exp l))

/-- Entry (i, j) of a path matrix, zero outside its bounds. -/
def entry (M : List (List K)) (i j : ℕ) : K := (M.getD i []).getD j 0

/-- Spec wording: for j greater than or equal to 1, the price of path i at
step j is S0 times the exponential of the sum of its first j
log-increments. -/
noncomputable def spec_price (Z : ℕ → ℕ → ℝ) (S0 mu sigma T : ℝ)
    (steps i j : ℕ) : ℝ :=
  S0 * Real.exp (∑ t ∈ Finset.range j,
    ((mu - 0.5 * sigma ^ 2) * (T / (steps : ℝ)) +
      sigma * Real.sqrt (T / (steps : ℝ)) * Z i t))

lemma cumsum_length (xs : List K) : (cumsum xs).length = xs.length := by
  induction xs with
  | nil => rfl
  | cons x xs ih => simp [cumsum, ih]

lemma cumsum_getD {xs : List K} {j : ℕ} (h : j < xs.length) :
    (cumsum xs).getD j 0 = ∑ t ∈ Finset.range (j + 1), xs.getD t 0 := by
  induction xs generalizing j with
  | nil => exact absurd h (by simp)
  | cons x xs ih =>
    cases j with
    | zero => simp [cumsum]
    | succ j =>
      have hj : j < xs.length := by simpa using h
      have hj2 : j < ((cumsum xs).map (x + ·)).length := by
        simpa [cumsum_length] using hj
      rw [cumsum, List.getD_cons_succ, List.getD_eq_getElem _ _ hj2]
      rw [List.getElem_map, ← List.getD_eq_getElem _ 0, ih hj]
      nth_rewrite 2 [Finset.sum_range_succ']
      simp only [List.getD_cons_succ, List.getD_cons_zero]
      ring

lemma increments_length (Z : ℕ → ℕ → ℝ) (mu sigma dt : ℝ) (steps i : ℕ) :
    (increments Z mu sigma dt steps i).length = steps := by
  simp [increments]

lemma increments_getD (Z : ℕ → ℕ → ℝ) (mu sigma dt : ℝ) {steps : ℕ} (i : ℕ)
    {t : ℕ} (ht : t < steps) :
    (increments Z mu sigma dt steps i).getD t 0 =
    (mu - 0.5 * sigma ^ 2) * dt + sigma * Real.sqrt dt * Z i t := by
  rw [increments, List.getD_eq_getElem _ _ (by simpa using ht)]
  simp

lemma simulate_gbm_getD {n_sims : ℕ} {i : ℕ} (hi : i < n_sims)
    (Z : ℕ → ℕ → ℝ) (S0 mu sigma T : ℝ) (steps : ℕ) :
    (simulate_gbm Z S0 mu sigma T steps n_sims).getD i [] =
    S0 :: (cumsum (increments Z mu sigma (T / (steps : ℝ)) steps i)).map
      (fun l => S0 * Real.exp l) := by
  rw [simulate_gbm, List.getD_eq_getElem _ _ (by simpa using hi)]
  simp

/-- Claim C1: for S0 positive, sigma non-negative, T positive and at least
one step and one path, the simulator computes dt = T/steps, forms the
increments (mu - 0.5 sigma^2) dt + sigma sqrt(dt) Z, cumulative-sums them
row-wise as the log price relative to S0, exponentiates and scales by S0,
prepending S0 as column 0: the output has n_sims rows of length steps + 1,
column 0 equal to S0, and entry (i, j) equal to S0 exp(sum of the first j
increments of row i) for 1 <= j <= steps. -/
theorem simulate_gbm_correct (Z : ℕ → ℕ → ℝ) (S0 mu sigma T : ℝ) (steps n_sims : ℕ)
    (hS0 : 0 < S0) (hsig : 0 ≤ sigma) (hT : 0 < T) (hsteps : 1 ≤ steps)
    (hn : 1 ≤ n_sims) :
    (simulate_gbm Z S0 mu sigma T steps n_sims).length = n_sims ∧
    (∀ row ∈ simulate_gbm Z S0 mu sigma T steps n_sims, row.length = steps + 1) ∧
    (∀ i < n_sims, entry (simulate_gbm Z S0 mu sigma T steps n_sims) i 0 = S0) ∧
    (∀ i < n_sims, ∀ j, 1 ≤ j → j ≤ steps →
      entry (simulate_gbm Z S0 mu sigma T steps n_sims) i j =
        spec_price Z S0 mu sigma T steps i j) := by
  refine ⟨by simp [simulate_gbm], ?_, ?_, ?_⟩
  · intro row hrow
    rw [simulate_gbm] at hrow
    obtain ⟨i, _, rfl⟩ := List.mem_map.mp hrow
    simp [cumsum_length, increments_length]
  · intro i hi
    rw [entry, simulate_gbm_getD hi]
    rfl
  · intro i hi j hj1 hj2
    obtain ⟨j', rfl⟩ : ∃ j'', j = j'' + 1 := ⟨j - 1, (Nat.succ_pred_eq_of_pos hj1).symm⟩
    have hj' : j' < steps := Nat.lt_of_succ_le hj2
    rw [entry, simulate_gbm_getD hi, List.getD_cons_succ]
    have hlen : j' < ((cumsum (increments Z mu sigma (T / (steps : ℝ)) steps i)).map
        (fun l => S0 * Real.exp l)).length := by
      simp [cumsum_length, increments_length, hj']
    rw [List.getD_eq_getElem _ _ hlen, List.getElem_map, ← List.getD_eq_getElem _ 0]
    rw [cumsum_getD (by simpa [increments_length] using hj')]
    have hsum : (∑ t ∈ Finset.range (j' + 1),
        (increments Z mu sigma (T / (steps : ℝ)) steps i).getD t 0) =
        ∑ t ∈ Finset.range (j' + 1),
          ((mu - 0.5 * sigma ^ 2) * (T / (steps : ℝ)) +
            sigma * Real.sqrt (T / (steps : ℝ)) * Z i t) := by
      refine Finset.sum_congr rfl (fun t ht => ?_)
      exact increments_getD Z mu sigma (T / (steps : ℝ)) i
        (Nat.lt_of_lt_of_le (Finset.mem_range.mp ht) hj2)
    rw [hsum, spec_price]

/-- Witness for claim C1 at the concrete input Z = 0, S0 = 100, mu = 0,
sigma = 0, T = 1, one step and one path. -/
theorem simulate_gbm_correct_witness :
    (simulate_gbm (fun _ _ => 0) 100 0 0 1 1 1).length = 1 ∧
    (∀ row ∈ simulate_gbm (fun _ _ => 0) 100 0 0 1 1 1, row.length = 1 + 1) ∧
    (∀ i < 1, entry (simulate_gbm (fun _ _ => 0) 100 0 0 1 1 1) i 0 = 100) ∧
    (∀ i < 1, ∀ j, 1 ≤ j → j ≤ 1 →
      entry (simulate_gbm (fun _ _ => 0) 100 0 0 1 1 1) i j =
        spec_price (fun _ _ => 0) 100 0 0 1 1 i j) :=
  simulate_gbm_correct (fun _ _ => 0) 100 0 0 1 1 1 (by norm_num) le_rfl
    (by norm_num) le_rfl le_rfl

/-- Claim C2: for S0 positive, every row of the path matrix starts with S0
at column 0, and every entry of the matrix is strictly positive. -/
theorem simulate_gbm_invariants (Z : ℕ → ℕ → ℝ) (S0 mu sigma T : ℝ)
    (steps n_sims : ℕ) (hS0 : 0 < S0) :
    (∀ row ∈ simulate_gbm Z S0 mu sigma T steps n_sims, row.getD 0 0 = S0) ∧
    (∀ row ∈ simulate_gbm Z S0 mu sigma T steps n_sims, ∀ x ∈ row, 0 < x) := by
  constructor <;> intro row hrow <;>
    rw [simulate_gbm] at hrow <;>
    obtain ⟨i, _, rfl⟩ := List.mem_map.mp hrow
  · rfl
  · intro x hx
    rcases List.mem_cons.mp hx with rfl | hx2
    · exact hS0
    · obtain ⟨l, _, rfl⟩ := List.mem_map.mp hx2
      exact mul_pos hS0 (Real.exp_pos l)

/-- Witness for claim C2 at the concrete input Z = 0, S0 = 100, mu = 0,
sigma = 0, T = 1, one step and one path. -/
theorem simulate_gbm_invariants_witness :
    (∀ row ∈ simulate_gbm (fun _ _ => 0) 100 0 0 1 1 1, row.getD 0 0 = 100) ∧
    (∀ row ∈ simulate_gbm (fun _ _ => 0) 100 0 0 1 1 1, ∀ x ∈ row, 0 < x) :=
  simulate_gbm_invariants (fun _ _ => 0) 100 0 0 1 1 1 (by norm_num)

/-! Determinism of an invocation.  Modelled from the spec: the seeded
standard-normal source (numpy default_rng(seed).standard_normal, an external
collaborator per section 6 of the spec) is modelled by a deterministic
linear-congruential stream; what matters for the claim is only that a fresh
generator is a pure function of the explicit seed, which is the contract the
spec states for the collaborator. -/

/-- One step of the modelled 64-bit generator state. -/
def lcgNext (s : ℕ) : ℕ := (6364136223846793005 * s + 1442695040888963407) % (2 ^ 64)

/-- State of the modelled generator after k draws from a fresh seed. -/
def lcgState (seed : ℕ) : ℕ → ℕ
  | 0 => lcgNext seed
  | k + 1 => lcgNext (lcgState seed k)

/-- Modelled from the spec: the (i, t) entry of the standard-normal draw of
a generator freshly constructed from the seed, read off row-major. -/
noncomputable def stdNormalDraw (seed steps i t : ℕ) : ℝ :=
  ((lcgState seed (i * steps + t) : ℕ) : ℝ) / 2 ^ 63 - 1

/-- A full invocation of the simulator: construct the generator from the
explicit seed (line 26), draw the normal matrix (line 28) and run the GBM
pipeline (lines 27, 29 to 32). -/
noncomputable def simulate_gbm_invoke (seed : ℕ) (S0 mu sigma T : ℝ)
    (steps n_sims : ℕ) : List (List ℝ) :=
  simulate_gbm (stdNormalDraw seed steps) S0 mu sigma T steps n_sims

/-- Claim C5: two invocations with identical seed and identical parameters
produce identical path matrices; the output depends on nothing but the seed
and the parameters. -/
theorem simulate_gbm_deterministic (seed1 seed2 : ℕ) (S0 mu sigma T : ℝ)
    (steps n_sims : ℕ) (h : seed1 = seed2) :
    simulate_gbm_invoke seed1 S0 mu sigma T steps n_sims =
    simulate_gbm_invoke seed2 S0 mu sigma T steps n_sims := by
  rw [h]

/-- Witness for claim C5 at seed 123 and the concrete parameters
S0 = 100, mu = 0, sigma = 0, T = 1, one step and one path. -/
theorem simulate_gbm_deterministic_witness :
    simulate_gbm_invoke 123 100 0 0 1 1 1 = simulate_gbm_invoke 123 100 0 0 1 1 1 :=
  simulate_gbm_deterministic 123 123 100 0 0 1 1 1 rfl

/-! Call-level error behavior of the simulator.  The Python body performs no
parameter validation: the only raising operation is the division dt = T/steps
at line 27, which raises ZeroDivisionError exactly when steps = 0. -/

/-- The one error a call to simulate_gbm can raise. -/
inductive SimError where
  | zeroDivision : SimError
deriving DecidableEq

/-- A call to simulate_gbm as executed: ZeroDivisionError when steps = 0
(line 27), otherwise the path matrix; no other check is performed on any
parameter. -/
noncomputable def simulate_gbm_run (Z : ℕ → ℕ → ℝ) (S0 mu sigma T : ℝ)
    (steps n_sims : ℕ) : Except SimError (List (List ℝ)) :=
  if steps = 0 then Except.error SimError.zeroDivision
  else Except.ok (simulate_gbm Z S0 mu sigma T steps n_sims)

/-- Counterexample to claim C8: at the out-of-domain parameters S0 = -5 and
sigma = -1 (with T = 1, steps = 1, n_sims = 1) the simulator does not fail
with InvalidParameterError or otherwise: the call succeeds and returns a
path matrix. -/
theorem simulate_gbm_no_validation_counterexample :
    simulate_gbm_run (fun _ _ => 0) (-5) 0 (-1) 1 1 1 =
    Except.ok (simulate_gbm (fun _ _ => 0) (-5) 0 (-1) 1 1 1) := by
  rw [simulate_gbm_run, if_neg one_ne_zero]

/-- Claim C8 as amended: the simulator performs no input validation at all.
Every call with steps nonzero succeeds and returns the path matrix, whether
or not the parameters are in the stated domains; a call with steps = 0
raises ZeroDivisionError (from dt = T/steps), not InvalidParameterError. -/
theorem simulate_gbm_no_validation (Z : ℕ → ℕ → ℝ) (S0 mu sigma T : ℝ)
    (steps n_sims : ℕ) :
    (steps ≠ 0 → simulate_gbm_run Z S0 mu sigma T steps n_sims =
      Except.ok (simulate_gbm Z S0 mu sigma T steps n_sims)) ∧
    (steps = 0 → simulate_gbm_run Z S0 mu sigma T steps n_sims =
      Except.error SimError.zeroDivision) := by
  constructor <;> intro h <;> simp [simulate_gbm_run, h]

/-! The parameter estimator: the estimation section of run_monte_carlo
(lines 75 to 86).  The raw price series may hold NaN entries (none); the
cleaning step close.dropna() keeps the defined values. -/

/-- Consecutive simple daily returns p_t / p_(t-1) - 1, as
close.pct_change().dropna() computes them (line 81). -/
def pctChange : List K → List K
  | [] => []
  | [_] => []
  | a :: b :: rest => (b / a - 1) :: pctChange (b :: rest)

/-- The one failure of the estimation section: no valid prices remain after
cleaning (line 76, a ValueError in the source). -/
inductive EstError where
  | noValidPrices : EstError
deriving DecidableEq

/-- The estimated parameters (lines 80 to 86).  Fields that pandas computes
as NaN on too little data are none. -/
structure EstResult where
  spot_price : ℝ
  mu_daily : Option ℝ
  sigma_daily : Option ℝ
  mu_annual : Option ℝ
  sigma_annual : Option ℝ

/-- The estimation section of run_monte_carlo (lines 75 to 86): drop the
undefined prices, fail when nothing remains, otherwise take the last price
as the spot, the pandas mean and standard deviation (ddof = 1) of the daily
returns, and annualize: mu by compounding over 252 trading days, sigma by
the square root of 252. -/
noncomputable def estimate (raw : List (Option ℝ)) : Except EstError EstResult :=
  let close := raw.filterMap id
  if close.isEmpty then Except.error EstError.noValidPrices
  else
    let rets := pctChange close
    let mu_daily := meanOpt rets
    let sigma_daily := (varDdof1 rets).map Real.sqrt
    Except.ok
      ⟨close.getLastD 0, mu_daily, sigma_daily,
        mu_daily.map (fun m => (1 + m) ^ (252 : ℕ) - 1),
        sigma_daily.map (fun s => s * Real.sqrt 252)⟩

lemma pctChange_length (xs : List K) : (pctChange xs).length = xs.length - 1 := by
  induction xs with
  | nil => rfl
  | cons a xs ih =>
    cases xs with
    | nil => rfl
    | cons b rest => simpa [pctChange] using ih

/-- Claim C6: on a cleaned series of at least 2 positive prices the
estimator returns spot_price equal to the last price, mu_daily the
arithmetic mean of the simple daily returns, mu_annual by the compounding
annualization (1 + mu_daily)^252 - 1, and sigma_annual = sigma_daily times
the square root of the fixed trading-day count 252. -/
theorem estimate_formulas (raw : List (Option ℝ))
    (h2 : 2 ≤ (raw.filterMap id).length)
    (hpos : ∀ p ∈ raw.filterMap id, 0 < p) :
    ∃ r : EstResult, estimate raw = Except.ok r ∧
      r.spot_price = (raw.filterMap id).getLastD 0 ∧
      r.mu_daily = some (mean (pctChange (raw.filterMap id))) ∧
      r.mu_annual = some ((1 + mean (pctChange (raw.filterMap id))) ^ (252 : ℕ) - 1) ∧
      r.sigma_annual = r.sigma_daily.map (fun s => s * Real.sqrt 252) := by
  have hne : ¬ (raw.filterMap id).isEmpty = true := by
    rw [List.isEmpty_iff]
    intro h
    rw [h] at h2
    exact absurd h2 (by norm_num)
  have hrets : ¬ (pctChange (raw.filterMap id)).isEmpty = true := by
    rw [List.isEmpty_iff, ← List.length_eq_zero, pctChange_length]
    omega
  refine ⟨_, by rw [estimate, if_neg hne], rfl, ?_, ?_, rfl⟩
  · rw [meanOpt, if_neg hrets]
  · rw [meanOpt, if_neg hrets, Option.map_some']

/-- Witness for claim C6 at the concrete cleaned series 100, 110. -/
theorem estimate_formulas_witness :
    ∃ r : EstResult, estimate [some 100, some 110] = Except.ok r ∧
      r.spot_price = (([some 100, some 110] : List (Option ℝ)).filterMap id).getLastD 0 ∧
      r.mu_daily = some (mean (pctChange (([some 100, some 110] : List (Option ℝ)).filterMap id))) ∧
      r.mu_annual = some ((1 + mean (pctChange (([some 100, some 110] : List (Option ℝ)).filterMap id))) ^ (252 : ℕ) - 1) ∧
      r.sigma_annual = r.sigma_daily.map (fun s => s * Real.sqrt 252) :=
  estimate_formulas [some 100, some 110] (by simp [List.filterMap_cons])
    (by norm_num [List.filterMap_cons])

/-- Counterexample to claim C7: a series with exactly one valid price is not
rejected: the estimation step succeeds, returning the price as spot and NaN
(none) for every estimate. -/
theorem estimate_single_price_counterexample :
    estimate [some (100 : ℝ)] = Except.ok ⟨100, none, none, none, none⟩ := by
  rw [estimate]
  simp [List.filterMap_cons, pctChange, meanOpt, varDdof1, List.getLastD]

/-- Claim C7 as amended: the estimation step fails (with a ValueError, the
source has no InsufficientDataError) only when zero valid prices remain
after cleaning; with exactly one valid price it does not fail, returning
NaN (none) daily and annual estimates instead of a rejection. -/
theorem estimate_insufficient_data (raw : List (Option ℝ)) :
    (raw.filterMap id = [] → estimate raw = Except.error EstError.noValidPrices) ∧
    (∀ p : ℝ, raw.filterMap id = [p] →
      estimate raw = Except.ok ⟨p, none, none, none, none⟩) := by
  constructor
  · intro h
    rw [estimate, if_pos (by rw [List.isEmpty_iff]; exact h)]
  · intro p hp
    rw [estimate, if_neg (by rw [List.isEmpty_iff, hp]; exact List.cons_ne_nil p [])]
    rw [hp]
    norm_num [pctChange, meanOpt, varDdof1, List.getLastD]

/-- Witness for claim C7 as amended, at the concrete series with one NaN
entry and zero, respectively one, valid prices. -/
theorem estimate_insufficient_data_witness :
    estimate [none] = Except.error EstError.noValidPrices ∧
    estimate [none, some 7] = Except.ok ⟨7, none, none, none, none⟩ :=
  ⟨(estimate_insufficient_data [none]).1 rfl,
    (estimate_insufficient_data [none, some 7]).2 7 rfl⟩

/-- Counterexample to claim C9: the standard-deviation conventions of the
program do not agree.  On the cleaned prices 1, 1, 2 the daily returns are
0, 1; the estimator computes their variance with the pandas default
ddof = 1 (value 1/2, line 83) while the summary statistics use the NumPy
default ddof = 0 (value 1/4, lines 125 and 129): the divisor conventions
differ. -/
theorem std_convention_counterexample :
    pctChange ([1, 1, 2] : List ℚ) = [0, 1] ∧
    varDdof1 ([0, 1] : List ℚ) = some (1 / 2) ∧
    varDdof0 ([0, 1] : List ℚ) = some (1 / 4) ∧
    varDdof1 ([0, 1] : List ℚ) ≠ varDdof0 ([0, 1] : List ℚ) := by
  refine ⟨by norm_num [pctChange], ?_, ?_, ?_⟩
  · norm_num [varDdof1, mean]
  · norm_num [varDdof0, mean]
  · norm_num [varDdof0, varDdof1, mean]

/-- Claim C9 as amended: the two conventions are fixed but different.
The estimator uses ddof = 1 (pandas Series.std default) for sigma_daily,
the summary statistics use ddof = 0 (NumPy ndarray.std default); on any
data of length at least 2 the former equals the latter rescaled by
n / (n - 1), so they agree only on data of zero variance. -/
theorem std_convention_relation (xs : List K) (h : 2 ≤ xs.length) :
    varDdof1 xs = (varDdof0 xs).map
      (fun v => v * (xs.length : K) / ((xs.length : K) - 1)) := by
  have hne : ¬ xs.isEmpty = true := by
    rw [List.isEmpty_iff, ← List.length_eq_zero]
    omega
  have hlt : ¬ xs.length < 2 := Nat.not_lt.mpr h
  have hn : (2 : K) ≤ (xs.length : K) := by exact_mod_cast h
  rw [varDdof1, varDdof0, if_neg hlt, if_neg hne, Option.map_some']
  congr 1
  have h0 : (xs.length : K) ≠ 0 := by linarith
  have h1 : (xs.length : K) - 1 ≠ 0 := by intro hc; nlinarith [hc]
  field_simp

/-- Witness for claim C9 as amended, at the concrete returns 0, 1. -/
theorem std_convention_relation_witness :
    varDdof1 ([0, 1] : List ℚ) = (varDdof0 ([0, 1] : List ℚ)).map
      (fun v => v * ((([0, 1] : List ℚ).length : ℚ)) / ((([0, 1] : List ℚ).length : ℚ) - 1)) :=
  std_convention_relation [0, 1] (by norm_num)

end MonteCarlo
